import Mathlib

/-!
# Verification of `update_readme.py`

A shallow embedding of the skills-table generator script and proofs about it.
Text is modelled as `List Char`; a file's contents, split into lines, as
`List (List Char)`; the Python `dict[str, str]` as an insertion-ordered
association list `List (List Char × List Char)`; a fallible operation as
`Option`.
-/

/-- Coerce a Lean string literal to the `List Char` text representation. -/
def str (s : String) : List Char := s.data

/-! ## Python primitives -/

/-- The whitespace characters stripped by Python's `str.strip()` (ASCII part). -/
def isPySpace (c : Char) : Bool :=
  c == ' ' || c == '\t' || c == '\n' || c == '\r' || c == '\x0b' || c == '\x0c'

/-- Python `str.strip()`: remove leading and trailing whitespace. -/
def pyStrip (l : List Char) : List Char :=
  ((l.dropWhile isPySpace).reverse.dropWhile isPySpace).reverse

/-- Python `big.index(pat)` / `pat in big`: index of the first occurrence of
`pat` as a substring of `big`, `none` when there is no occurrence. -/
def firstIdx (pat : List Char) : List Char → Option Nat
  | [] => if pat <+: ([] : List Char) then some 0 else none
  | c :: rest =>
    if pat <+: (c :: rest) then some 0 else (firstIdx pat rest).map (· + 1)

/-- Python `"\n".join(lines)`. -/
def joinNL : List (List Char) → List Char
  | [] => []
  | [l] => l
  | l :: l' :: ls => l ++ '\n' :: joinNL (l' :: ls)

/-- Python `dict` assignment `d[k] = v`: overwrite in place when the key is
present (keeping its position), otherwise append at the end. -/
def dictInsert (k v : List Char) : List (List Char × List Char) → List (List Char × List Char)
  | [] => [(k, v)]
  | (k', v') :: rest => if k' = k then (k, v) :: rest else (k', v') :: dictInsert k v rest

/-- Python `d.get(k)`: value of the first entry with the given key. -/
def dictFind (k : List Char) : List (List Char × List Char) → Option (List Char)
  | [] => none
  | (k', v) :: rest => if k' = k then some v else dictFind k rest

/-! ## The script's constants (`update_readme.py`, lines 11-12) -/

def TABLE_START : List Char := str "<!-- SKILLS_TABLE_START -->"

def TABLE_END : List Char := str "<!-- SKILLS_TABLE_END -->"

/-! ## Embedding of `parse_frontmatter` (lines 42-62)

The source reads the file at a path and splits it into lines
(`skill_md.read_text().splitlines()`); the embedding takes the resulting
list of lines as its argument. -/

/-- The `for i in range(1, len(lines))` search for the closing `---`: index
(into the lines after the first) of the first line whose strip is `---`. -/
def findSentinel : List (List Char) → Option Nat
  | [] => none
  | l :: rest => if pyStrip l = str "---" then some 0 else (findSentinel rest).map (· + 1)

/-- One iteration of the `for line in lines[1:end_idx]` loop: skip the line
when it has no `':'`, otherwise split on the first `':'`, strip both parts and
assign into the dict. -/
def fmLine (d : List (List Char × List Char)) (line : List Char) :
    List (List Char × List Char) :=
  if ':' ∈ line then
    dictInsert (pyStrip (line.takeWhile (· ≠ ':')))
      (pyStrip ((line.dropWhile (· ≠ ':')).drop 1)) d
  else d

/-- The function `parse_frontmatter`: `{}` unless line 0 strips to `---`; `{}` when no
later line strips to `---`; otherwise fold the loop body over the lines
strictly between the two sentinel lines. -/
def parse_frontmatter (lines : List (List Char)) : List (List Char × List Char) :=
  match lines with
  | [] => []
  | l0 :: rest =>
    if pyStrip l0 = str "---" then
      match findSentinel rest with
      | none => []
      | some i => (rest.take i).foldl fmLine []
    else []

/-! ## Embedding of `list_skill_dirs` (lines 33-39)

The filesystem listing `root.iterdir()` is modelled as a list of entries,
each carrying its name, whether it is a directory, and whether a
`SKILL.md` file exists inside it. -/

structure DirEntry where
  name : List Char
  isDir : Bool
  hasSkillMd : Bool
  deriving DecidableEq

/-- The filter of the comprehension in `list_skill_dirs`:
`p.is_dir() and not p.name.startswith(".") and (p / "SKILL.md").exists()`. -/
def skillDirFilter (e : DirEntry) : Bool :=
  e.isDir && !(str ".").isPrefixOf e.name && e.hasSkillMd

/-- The function `list_skill_dirs`: sorted names of the entries passing the filter.
Python's `sorted` on strings is the lexicographic order by code points,
which is `(· ≤ ·)` on `List Char`. -/
def list_skill_dirs (entries : List DirEntry) : List (List Char) :=
  List.insertionSort (· ≤ ·) ((entries.filter skillDirFilter).map (·.name))

/-! ## Embedding of `build_skills_table` (lines 65-79)

`root` only serves to locate each `<name>/SKILL.md`; the embedding takes a
function `files` from a directory name to the lines of its `SKILL.md`. -/

/-- The body of the `for name in skill_names` loop: the table row built for
one skill directory. -/
def build_row (repo name : List Char) (fm : List (List Char × List Char)) : List Char :=
  let skill_name := (dictFind (str "name") fm).getD name
  let description := pyStrip ((dictFind (str "description") fm).getD [])
  let install_cmd := str "`bunx skills add " ++ repo ++ str " --skill \"" ++
    skill_name ++ str "\"`"
  str "| [" ++ skill_name ++ str "](" ++ name ++ str ") | " ++ description ++
    str " | " ++ install_cmd ++ str " |"

/-- The function `build_skills_table`: the two header lines followed by one row per name. -/
def build_skills_table (files : List Char → List (List Char))
    (skill_names : List (List Char)) (repo : List Char) : List (List Char) :=
  [str "| Skill | Description | Install Command |",
   str "|-------|-------------|-----------------|"] ++
  skill_names.map (fun name => build_row repo name (parse_frontmatter (files name)))

/-! ## Embedding of `update_readme` (lines 82-97)

`readme_path.read_text()` becomes the `content` argument; `none` models the
`RuntimeError` raised before any write; `some new_content` models
`readme_path.write_text(new_content)`. -/

/-- The function `update_readme`: fail when either marker is absent, otherwise splice the
joined table lines (with a newline on each side) between the end of the
first `TABLE_START` and the start of the first `TABLE_END`. -/
def update_readme (content : List Char) (table_lines : List (List Char)) :
    Option (List Char) :=
  match firstIdx TABLE_START content, firstIdx TABLE_END content with
  | some s, some e =>
    some (content.take (s + TABLE_START.length) ++ ['\n'] ++ joinNL table_lines ++
      ['\n'] ++ content.drop e)
  | _, _ => none

/-- The contents of the README file after a run of `update_readme` on a file
holding `content`: unchanged when the error is raised (the `RuntimeError` is
raised before `write_text`), the spliced text otherwise. -/
def diskAfter (content : List Char) (table_lines : List (List Char)) : List Char :=
  (update_readme content table_lines).getD content

/-! ## Helper lemmas: substring occurrences and `firstIdx` -/

theorem take_of_pref {p l : List Char} (h : p <+: l) : l.take p.length = p := by
  obtain ⟨t, rfl⟩ := h
  exact List.take_left p t

theorem pref_of_take {p l : List Char} (h : l.take p.length = p) : p <+: l := by
  have h2 : l.take p.length <+: l := ⟨l.drop p.length, List.take_append_drop _ _⟩
  rwa [h] at h2

theorem pref_append_left {p A B : List Char} (hlen : p.length ≤ A.length) :
    p <+: A ++ B ↔ p <+: A := by
  constructor
  · intro h
    apply pref_of_take
    rw [← List.take_append_of_le_length hlen]
    exact take_of_pref h
  · intro h
    exact h.trans ⟨B, rfl⟩

theorem pref_append_short {p A B : List Char} (hlen : A.length ≤ p.length)
    (h : p <+: A ++ B) : A <+: p := by
  obtain ⟨t, ht⟩ := h
  apply pref_of_take
  have := congrArg (List.take A.length) ht
  rwa [List.take_append_of_le_length hlen, List.take_left] at this

theorem occ_length_le {pat l : List Char} {n : Nat} (h : pat <+: l.drop n)
    (hne : pat ≠ []) : n + pat.length ≤ l.length := by
  have h1 : pat.length ≤ l.length - n := by
    have := h.length_le
    rwa [List.length_drop] at this
  by_cases h2 : n ≤ l.length
  · omega
  · exfalso
    have : pat.length = 0 := by omega
    exact hne (List.length_eq_zero.mp this)

theorem occ_of_occ_take {pat C : List Char} {m q : Nat}
    (h : pat <+: (C.take m).drop q) : pat <+: C.drop q := by
  rw [List.drop_take] at h
  exact h.trans ⟨(C.drop q).drop (m - q), List.take_append_drop _ _⟩

theorem occ_of_occ_append {pat A B : List Char} {q : Nat}
    (hfit : q + pat.length ≤ A.length) (h : pat <+: (A ++ B).drop q) :
    pat <+: A.drop q := by
  rw [List.drop_append_of_le_length (by omega)] at h
  exact (pref_append_left (by rw [List.length_drop]; omega)).mp h

theorem no_occ_across_newline {pat X : List Char} {q i : Nat} (hnl : '\n' ∉ pat)
    (h : pat <+: X.drop q) (hi : q ≤ i) (hi2 : i < q + pat.length)
    (hX : X[i]? = some '\n') : False := by
  obtain ⟨t, ht⟩ := h
  have h1 : (X.drop q)[i - q]? = pat[i - q]? := by
    rw [← ht]
    exact List.getElem?_append_left (by omega)
  rw [List.getElem?_drop] at h1
  have h2 : q + (i - q) = i := by omega
  rw [h2, hX] at h1
  exact hnl (List.getElem?_mem h1.symm)

theorem firstIdx_some {pat l : List Char} {n : Nat} (h : firstIdx pat l = some n) :
    pat <+: l.drop n ∧ ∀ m < n, ¬ pat <+: l.drop m := by
  induction l generalizing n with
  | nil =>
    unfold firstIdx at h
    split at h
    · cases h
      exact ⟨by assumption, by omega⟩
    · cases h
  | cons c rest ih =>
    unfold firstIdx at h
    split at h
    · cases h
      exact ⟨by assumption, by omega⟩
    · rename_i hnot
      obtain ⟨n', hn', rfl⟩ : ∃ n', firstIdx pat rest = some n' ∧ n' + 1 = n := by
        cases h' : firstIdx pat rest with
        | none => rw [h'] at h; cases h
        | some k => rw [h'] at h; cases h; exact ⟨k, rfl, rfl⟩
      obtain ⟨h1, h2⟩ := ih hn'
      refine ⟨h1, ?_⟩
      intro m hm
      cases m with
      | zero => exact hnot
      | succ m' => exact h2 m' (by omega)

theorem firstIdx_eq_some {pat l : List Char} {n : Nat} (h1 : pat <+: l.drop n)
    (h2 : ∀ m < n, ¬ pat <+: l.drop m) : firstIdx pat l = some n := by
  induction l generalizing n with
  | nil =>
    cases n with
    | zero =>
      rw [List.drop_zero] at h1
      unfold firstIdx
      rw [if_pos h1]
    | succ n' =>
      have h0 := h2 0 (by omega)
      rw [List.drop_zero] at h0
      rw [List.drop_nil] at h1
      exact absurd h1 h0
  | cons c rest ih =>
    cases n with
    | zero =>
      rw [List.drop_zero] at h1
      unfold firstIdx
      rw [if_pos h1]
    | succ n' =>
      have h0 := h2 0 (by omega)
      rw [List.drop_zero] at h0
      rw [List.drop_succ_cons] at h1
      have h2' : ∀ m < n', ¬ pat <+: rest.drop m := by
        intro m hm
        have := h2 (m + 1) (by omega)
        rwa [List.drop_succ_cons] at this
      unfold firstIdx
      rw [if_neg h0, ih h1 h2']
      rfl

theorem firstIdx_none {pat l : List Char} :
    firstIdx pat l = none ↔ ∀ n, ¬ pat <+: l.drop n := by
  induction l with
  | nil =>
    unfold firstIdx
    constructor
    · intro h n
      rw [List.drop_nil]
      split at h
      · cases h
      · assumption
    · intro h
      have h0 := h 0
      rw [List.drop_nil] at h0
      rw [if_neg h0]
  | cons c rest ih =>
    unfold firstIdx
    constructor
    · intro h n
      split at h
      · cases h
      · rename_i hnot
        cases n with
        | zero => rw [List.drop_zero]; exact hnot
        | succ n' =>
          rw [List.drop_succ_cons]
          have hrest : firstIdx pat rest = none := by
            cases h' : firstIdx pat rest with
            | none => rfl
            | some k => rw [h'] at h; cases h
          exact ih.mp hrest n'
    · intro h
      have h0 := h 0
      rw [List.drop_zero] at h0
      have hrest : firstIdx pat rest = none := by
        apply ih.mpr
        intro n
        have := h (n + 1)
        rwa [List.drop_succ_cons] at this
      rw [if_neg h0, hrest]
      rfl

/-! ## Helper lemmas: dict and sentinel search -/

theorem dictFind_dictInsert (k k' v : List Char) (d : List (List Char × List Char)) :
    dictFind k (dictInsert k' v d) = if k' = k then some v else dictFind k d := by
  induction d with
  | nil => rfl
  | cons e rest ih =>
    obtain ⟨k0, v0⟩ := e
    by_cases h0 : k0 = k'
    · subst h0
      by_cases h1 : k0 = k <;> simp [dictInsert, dictFind, h1]
    · by_cases h1 : k0 = k
      · subst h1
        have h2 : ¬ k' = k0 := fun h => h0 h.symm
        simp [dictInsert, dictFind, h0, h2]
      · simp [dictInsert, dictFind, h0, h1, ih]

theorem findSentinel_none {ls : List (List Char)} :
    findSentinel ls = none ↔ ∀ l ∈ ls, pyStrip l ≠ str "---" := by
  induction ls with
  | nil => simp [findSentinel]
  | cons l rest ih =>
    unfold findSentinel
    by_cases h : pyStrip l = str "---"
    · simp [h]
    · simp only [if_neg h]
      constructor
      · intro hmap l' hl'
        have : findSentinel rest = none := by
          cases h' : findSentinel rest with
          | none => rfl
          | some k => rw [h'] at hmap; cases hmap
        rcases List.mem_cons.mp hl' with rfl | hmem
        · exact h
        · exact ih.mp this l' hmem
      · intro hall
        rw [ih.mpr (fun l' hl' => hall l' (List.mem_cons_of_mem _ hl'))]
        rfl

theorem findSentinel_append {body : List (List Char)} {lc : List Char}
    (rest : List (List Char)) (hbody : ∀ l ∈ body, pyStrip l ≠ str "---")
    (hlc : pyStrip lc = str "---") :
    findSentinel (body ++ lc :: rest) = some body.length := by
  induction body with
  | nil =>
    show findSentinel (lc :: rest) = some 0
    unfold findSentinel
    rw [if_pos hlc]
  | cons l body' ih =>
    show findSentinel (l :: (body' ++ lc :: rest)) = some (body'.length + 1)
    unfold findSentinel
    rw [if_neg (hbody l (List.mem_cons_self l body'))]
    rw [ih (fun l' hl' => hbody l' (List.mem_cons_of_mem _ hl'))]
    rfl

theorem findSentinel_take {ls : List (List Char)} {i : Nat}
    (h : findSentinel ls = some i) : ∀ l ∈ ls.take i, pyStrip l ≠ str "---" := by
  induction ls generalizing i with
  | nil => simp
  | cons l rest ih =>
    unfold findSentinel at h
    split at h
    · cases h
      simp
    · rename_i hnot
      obtain ⟨i', hi', rfl⟩ : ∃ i', findSentinel rest = some i' ∧ i' + 1 = i := by
        cases h' : findSentinel rest with
        | none => rw [h'] at h; cases h
        | some k => rw [h'] at h; cases h; exact ⟨k, rfl, rfl⟩
      intro l' hl'
      rcases List.mem_cons.mp (by simpa using hl') with rfl | hmem
      · exact hnot
      · exact ih hi' l' hmem

/-! ## Helper lemmas: the spliced document -/

theorem length_take_occ {pat C : List Char} {s : Nat} (hocc : pat <+: C.drop s)
    (hne : pat ≠ []) : (C.take (s + pat.length)).length = s + pat.length := by
  rw [List.length_take]
  exact inf_eq_left.mpr (occ_length_le hocc hne)

theorem drop_take_occ {pat C : List Char} {s : Nat} (hocc : pat <+: C.drop s) :
    (C.take (s + pat.length)).drop s = pat := by
  rw [List.drop_take]
  have h : s + pat.length - s = pat.length := by omega
  rw [h, take_of_pref hocc]

/-! ## Claim theorems -/

/-- C1: when the first occurrence of the start marker (at `s`) precedes the
first occurrence of the end marker (at `e`), `update_readme` writes the
document equal to the original up to and including the start marker, then a
newline, the joined table lines, a trailing newline, and the original from
the start of the end marker onward; the bytes before the start marker's end
and from the end marker's start on, both markers included, are preserved. -/
theorem c1_update_readme_splices (content : List Char) (T : List (List Char))
    (s e : Nat) (hs : firstIdx TABLE_START content = some s)
    (he : firstIdx TABLE_END content = some e) (hse : s < e) :
    ∃ out, update_readme content T = some out ∧
      out = content.take (s + TABLE_START.length) ++ ['\n'] ++ joinNL T ++ ['\n'] ++
        content.drop e ∧
      out.take (s + TABLE_START.length) = content.take (s + TABLE_START.length) ∧
      out.drop (s + TABLE_START.length + (joinNL T).length + 2) = content.drop e ∧
      TABLE_START <+: out.drop s ∧
      TABLE_END <+: out.drop (s + TABLE_START.length + (joinNL T).length + 2) := by
  have hSocc := (firstIdx_some hs).1
  have hEocc := (firstIdx_some he).1
  have hAlen : (content.take (s + TABLE_START.length)).length = s + TABLE_START.length :=
    length_take_occ hSocc (by decide)
  have htake : (content.take (s + TABLE_START.length) ++
      ('\n' :: (joinNL T ++ '\n' :: content.drop e))).take (s + TABLE_START.length) =
      content.take (s + TABLE_START.length) := by
    have h2 := List.take_left (content.take (s + TABLE_START.length))
      ('\n' :: (joinNL T ++ '\n' :: content.drop e))
    rwa [hAlen] at h2
  have hdropped : (content.take (s + TABLE_START.length) ++
      ('\n' :: (joinNL T ++ '\n' :: content.drop e))).drop
        (s + TABLE_START.length + (joinNL T).length + 2) = content.drop e := by
    have h3 := List.drop_left (content.take (s + TABLE_START.length) ++
      ('\n' :: (joinNL T ++ ['\n']))) (content.drop e)
    have hXlen : (content.take (s + TABLE_START.length) ++
        ('\n' :: (joinNL T ++ ['\n']))).length =
        s + TABLE_START.length + (joinNL T).length + 2 := by
      simp only [List.length_append, List.length_cons, List.length_nil, hAlen]
      omega
    rw [hXlen] at h3
    have hre : content.take (s + TABLE_START.length) ++
        ('\n' :: (joinNL T ++ '\n' :: content.drop e)) =
        (content.take (s + TABLE_START.length) ++ ('\n' :: (joinNL T ++ ['\n']))) ++
          content.drop e := by simp
    rw [hre]
    exact h3
  have hdrops : (content.take (s + TABLE_START.length) ++
      ('\n' :: (joinNL T ++ '\n' :: content.drop e))).drop s =
      TABLE_START ++ ('\n' :: (joinNL T ++ '\n' :: content.drop e)) := by
    rw [List.drop_append_of_le_length (by rw [hAlen]; omega), drop_take_occ hSocc]
  have hform : content.take (s + TABLE_START.length) ++ ['\n'] ++ joinNL T ++ ['\n'] ++
      content.drop e = content.take (s + TABLE_START.length) ++
      ('\n' :: (joinNL T ++ '\n' :: content.drop e)) := by simp
  refine ⟨content.take (s + TABLE_START.length) ++ ['\n'] ++ joinNL T ++ ['\n'] ++
    content.drop e, ?_, rfl, ?_, ?_, ?_, ?_⟩
  · unfold update_readme
    rw [hs, he]
  · rw [hform, htake]
  · rw [hform, hdropped]
  · rw [hform, hdrops]
    exact ⟨_, rfl⟩
  · rw [hform, hdropped]
    exact hEocc

/-- C1 witness: a concrete document with both markers in order. -/
theorem c1_witness :
    update_readme (str "<!-- SKILLS_TABLE_START -->old<!-- SKILLS_TABLE_END -->")
      [str "r"] =
      some (str "<!-- SKILLS_TABLE_START -->\nr\n<!-- SKILLS_TABLE_END -->") := by
  obtain ⟨out, h1, h2, -⟩ :=
    c1_update_readme_splices
      (str "<!-- SKILLS_TABLE_START -->old<!-- SKILLS_TABLE_END -->") [str "r"] 0 30
      (by decide) (by decide) (by decide)
  rw [h1, h2]
  decide

/-- C2: `update_readme` raises the configuration error exactly when one of
the two markers has no occurrence in the document, and in that case the file
on disk is unchanged (the error is raised before the write). -/
theorem c2_missing_marker_error (content : List Char) (T : List (List Char)) :
    (update_readme content T = none ↔
      (∀ n, ¬ TABLE_START <+: content.drop n) ∨
      (∀ n, ¬ TABLE_END <+: content.drop n)) ∧
    (update_readme content T = none → diskAfter content T = content) := by
  constructor
  · rw [← firstIdx_none, ← firstIdx_none]
    unfold update_readme
    cases h1 : firstIdx TABLE_START content <;> cases h2 : firstIdx TABLE_END content <;>
      simp
  · intro h
    unfold diskAfter
    rw [h]
    rfl

/-- C2 witness: a document with no markers errors out and the disk content
is unchanged. -/
theorem c2_witness :
    update_readme (str "plain text") [str "row"] = none ∧
    diskAfter (str "plain text") [str "row"] = str "plain text" := by
  have h := c2_missing_marker_error (str "plain text") [str "row"]
  have h1 : update_readme (str "plain text") [str "row"] = none :=
    h.1.mpr (Or.inl (firstIdx_none.mp (by decide)))
  exact ⟨h1, h.2 h1⟩

/-- C4 counterexample: the file `"  ---  \na: b\n---"` has `"  ---  "` as its
first non-empty line, which is not exactly the sentinel `"---"`, yet the
parser does not return the empty mapping: line 0 is matched against the
sentinel only after stripping whitespace. -/
theorem c4_counterexample :
    [str "  ---  ", str "a: b", str "---"].find? (fun l => !l.isEmpty) =
      some (str "  ---  ") ∧
    str "  ---  " ≠ str "---" ∧
    parse_frontmatter [str "  ---  ", str "a: b", str "---"] = [(str "a", str "b")] ∧
    parse_frontmatter [str "  ---  ", str "a: b", str "---"] ≠ [] := by
  decide

/-- C4 (amended): for every input file whose first non-empty line does not
equal the sentinel `"---"` after stripping surrounding whitespace, the
frontmatter parser returns an empty mapping rather than raising an error. -/
theorem c4_no_frontmatter_empty (lines : List (List Char))
    (h : ∀ l, lines.find? (fun l => !l.isEmpty) = some l → pyStrip l ≠ str "---") :
    parse_frontmatter lines = [] := by
  cases lines with
  | nil => rfl
  | cons l0 rest =>
    by_cases h0 : l0.isEmpty
    · have he : l0 = [] := by
        cases l0 with
        | nil => rfl
        | cons c cs => simp [List.isEmpty] at h0
      subst he
      simp only [parse_frontmatter]
      rw [if_neg (by decide)]
    · have hf : (l0 :: rest).find? (fun l => !l.isEmpty) = some l0 := by
        simp [List.find?, h0]
      have hne := h l0 hf
      simp only [parse_frontmatter]
      rw [if_neg hne]

/-- C4 witness: a file starting with an ordinary line parses to the empty
mapping. -/
theorem c4_witness : parse_frontmatter [str "hello"] = [] := by
  apply c4_no_frontmatter_empty
  intro l hl
  rw [show [str "hello"].find? (fun l => !l.isEmpty) = some (str "hello") from by decide] at hl
  cases hl
  decide

/-- C5 counterexample: in the file `"---\na: b\n --- "` the first line is
the opening sentinel `"---"` and no later line is exactly the sentinel, yet
the parser does not return the empty mapping: the closing line is matched
after stripping whitespace, so `" --- "` terminates the block and the file
parses to `{"a": "b"}`. -/
theorem c5_counterexample :
    str "a: b" ≠ str "---" ∧
    str " --- " ≠ str "---" ∧
    parse_frontmatter [str "---", str "a: b", str " --- "] = [(str "a", str "b")] ∧
    parse_frontmatter [str "---", str "a: b", str " --- "] ≠ [] := by
  decide

/-- C5 (amended): a file whose first line is the sentinel (up to surrounding
whitespace, as the parser matches it) but in which no later line equals the
sentinel after stripping surrounding whitespace parses to the empty mapping:
the unterminated block is tolerated, not an error. -/
theorem c5_unterminated_block_empty (l0 : List Char) (rest : List (List Char))
    (h0 : pyStrip l0 = str "---")
    (h1 : ∀ l ∈ rest, pyStrip l ≠ str "---") :
    parse_frontmatter (l0 :: rest) = [] := by
  simp only [parse_frontmatter]
  rw [if_pos h0, findSentinel_none.mpr h1]

/-- C5 witness: an opening `---` with no closing line yields the empty
mapping. -/
theorem c5_witness : parse_frontmatter [str "---", str "a: b"] = [] :=
  c5_unterminated_block_empty (str "---") [str "a: b"] (by decide) (by decide)

/-! ## C3: the per-line mapping of the frontmatter block -/

/-- The spec's description of one frontmatter line, observed through the
lookup of a single key `k`: a line with no `':'` is skipped silently;
otherwise the line is split on the first `':'` only, both parts are trimmed,
and when the key part equals `k` the value part becomes the current value
(so a later duplicate key overwrites an earlier one). -/
def specLookupStep (k : List Char) (acc : Option (List Char)) (line : List Char) :
    Option (List Char) :=
  if ':' ∈ line then
    if pyStrip (line.takeWhile (· ≠ ':')) = k then
      some (pyStrip ((line.dropWhile (· ≠ ':')).drop 1))
    else acc
  else acc

theorem fmLine_lookup (k : List Char) (d : List (List Char × List Char))
    (line : List Char) :
    dictFind k (fmLine d line) = specLookupStep k (dictFind k d) line := by
  unfold fmLine specLookupStep
  by_cases hc : ':' ∈ line
  · rw [if_pos hc, if_pos hc, dictFind_dictInsert]
  · rw [if_neg hc, if_neg hc]

theorem foldl_lookup (k : List Char) (body : List (List Char)) :
    ∀ d, dictFind k (body.foldl fmLine d) =
      body.foldl (specLookupStep k) (dictFind k d) := by
  induction body with
  | nil => intro d; rfl
  | cons line body' ih =>
    intro d
    show dictFind k (body'.foldl fmLine (fmLine d line)) =
      body'.foldl (specLookupStep k) (specLookupStep k (dictFind k d) line)
    rw [ih, fmLine_lookup]

/-- C3: for a block delimited by two sentinel lines, looking up any key in
the parse result is the left fold of the spec's per-line rule (skip lines
with no ':', split on the first ':' only, trim both parts, later duplicates
overwrite) over the lines strictly between the sentinels; in particular the
five-line example file parses to exactly {"name": "Foo", "desc": "a, b"}. -/
theorem c3_frontmatter_mapping :
    (∀ (l0 lc : List Char) (body rest : List (List Char)) (k : List Char),
      pyStrip l0 = str "---" → pyStrip lc = str "---" →
      (∀ l ∈ body, pyStrip l ≠ str "---") →
      dictFind k (parse_frontmatter (l0 :: (body ++ lc :: rest))) =
        body.foldl (specLookupStep k) none) ∧
    parse_frontmatter
        [str "---", str "name: Foo", str "desc: a, b", str "---", str "body"] =
      [(str "name", str "Foo"), (str "desc", str "a, b")] := by
  constructor
  · intro l0 lc body rest k h0 hlc hbody
    simp only [parse_frontmatter]
    rw [if_pos h0, findSentinel_append rest hbody hlc]
    show dictFind k (((body ++ lc :: rest).take body.length).foldl fmLine []) = _
    rw [List.take_left, foldl_lookup]
    rfl
  · decide

/-- C3 witness: looking up "name" in a one-line block. -/
theorem c3_witness :
    dictFind (str "name") (parse_frontmatter [str "---", str "name: Foo", str "---"]) =
      some (str "Foo") := by
  have h := c3_frontmatter_mapping.1 (str "---") (str "---") [str "name: Foo"] []
    (str "name") (by decide) (by decide) (by decide)
  exact h.trans (by decide)

/-! ## C10: sentinel lines are matched up to surrounding whitespace -/

/-- Replace a line by the literal sentinel exactly when the parser would
match it as a sentinel (its strip equals `---`). -/
def normalizeSentinel (l : List Char) : List Char :=
  if pyStrip l = str "---" then str "---" else l

theorem strip_normalize (l : List Char) :
    pyStrip (normalizeSentinel l) = str "---" ↔ pyStrip l = str "---" := by
  unfold normalizeSentinel
  by_cases h : pyStrip l = str "---"
  · rw [if_pos h]
    simp [h]
    decide
  · rw [if_neg h]

theorem findSentinel_map (ls : List (List Char)) :
    findSentinel (ls.map normalizeSentinel) = findSentinel ls := by
  induction ls with
  | nil => rfl
  | cons l rest ih =>
    show findSentinel (normalizeSentinel l :: rest.map normalizeSentinel) = _
    unfold findSentinel
    by_cases h : pyStrip l = str "---"
    · rw [if_pos ((strip_normalize l).mpr h), if_pos h]
    · rw [if_neg (fun hh => h ((strip_normalize l).mp hh)), if_neg h, ih]

theorem map_fix : ∀ {ls : List (List Char)},
    (∀ l ∈ ls, normalizeSentinel l = l) → List.map normalizeSentinel ls = ls := by
  intro ls h
  induction ls with
  | nil => rfl
  | cons l rest ih =>
    show normalizeSentinel l :: rest.map normalizeSentinel = l :: rest
    rw [h l (List.mem_cons_self _ _),
      ih (fun l' hl' => h l' (List.mem_cons_of_mem _ hl'))]

theorem pyStrip_of_all_space {l : List Char} (h : ∀ c ∈ l, isPySpace c = true) :
    pyStrip l = [] := by
  unfold pyStrip
  rw [List.dropWhile_eq_nil_iff.mpr h]
  rfl

/-- C10: the parser matches sentinel lines up to surrounding whitespace
(replacing every line whose strip is `---` by the literal `---` does not
change the parse), and only the literal first line can open the block: a
file whose first line is empty or whitespace-only parses to the empty
mapping no matter what follows. -/
theorem c10_sentinel_whitespace :
    (∀ lines : List (List Char),
      parse_frontmatter (lines.map normalizeSentinel) = parse_frontmatter lines) ∧
    (∀ (l0 : List Char) (rest : List (List Char)), (∀ c ∈ l0, isPySpace c = true) →
      parse_frontmatter (l0 :: rest) = []) := by
  constructor
  · intro lines
    cases lines with
    | nil => rfl
    | cons l0 rest =>
      show parse_frontmatter (normalizeSentinel l0 :: rest.map normalizeSentinel) = _
      simp only [parse_frontmatter]
      by_cases h : pyStrip l0 = str "---"
      · rw [if_pos ((strip_normalize l0).mpr h), if_pos h, findSentinel_map]
        cases hf : findSentinel rest with
        | none => rfl
        | some i =>
          show ((rest.map normalizeSentinel).take i).foldl fmLine [] =
            (rest.take i).foldl fmLine []
          rw [← List.map_take, map_fix ?_]
          intro l hl
          unfold normalizeSentinel
          rw [if_neg (findSentinel_take hf l hl)]
      · rw [if_neg (fun hh => h ((strip_normalize l0).mp hh)), if_neg h]
  · intro l0 rest hsp
    simp only [parse_frontmatter]
    rw [if_neg (show pyStrip l0 ≠ str "---" by rw [pyStrip_of_all_space hsp]; decide)]

/-- C10 witness: whitespace-padded sentinels parse like literal ones, and a
whitespace-only first line forces the empty mapping. -/
theorem c10_witness :
    parse_frontmatter [str "---", str "k: v", str "---"] =
      parse_frontmatter [str "  ---  ", str "k: v", str " --- "] ∧
    parse_frontmatter [str "  ", str "---", str "a: b", str "---"] = [] := by
  constructor
  · have h := c10_sentinel_whitespace.1 [str "  ---  ", str "k: v", str " --- "]
    have hm : [str "  ---  ", str "k: v", str " --- "].map normalizeSentinel =
        [str "---", str "k: v", str "---"] := by decide
    rw [hm] at h
    exact h
  · exact c10_sentinel_whitespace.2 (str "  ") [str "---", str "a: b", str "---"]
      (by decide)

/-! ## C8: display-name fallback in the generated rows -/

/-- C8: the table is the two header lines plus one generated row per entry,
and the row for an entry uses the frontmatter's "name" value as its display
name when the key is present (in the link text and in the install command),
falling back to the directory name when the frontmatter has no "name" key
(in particular when there is no frontmatter at all, so the mapping is empty). -/
theorem c8_display_name_fallback (files : List Char → List (List Char))
    (repo : List Char) (names : List (List Char)) (name : List Char) :
    build_skills_table files names repo =
      [str "| Skill | Description | Install Command |",
       str "|-------|-------------|-----------------|"] ++
      names.map (fun n => build_row repo n (parse_frontmatter (files n))) ∧
    (dictFind (str "name") (parse_frontmatter (files name)) = none →
      build_row repo name (parse_frontmatter (files name)) =
        str "| [" ++ name ++ str "](" ++ name ++ str ") | " ++
          pyStrip ((dictFind (str "description")
            (parse_frontmatter (files name))).getD []) ++
          str " | " ++ (str "`bunx skills add " ++ repo ++ str " --skill \"" ++
            name ++ str "\"`") ++ str " |") ∧
    (∀ v, dictFind (str "name") (parse_frontmatter (files name)) = some v →
      build_row repo name (parse_frontmatter (files name)) =
        str "| [" ++ v ++ str "](" ++ name ++ str ") | " ++
          pyStrip ((dictFind (str "description")
            (parse_frontmatter (files name))).getD []) ++
          str " | " ++ (str "`bunx skills add " ++ repo ++ str " --skill \"" ++
            v ++ str "\"`") ++ str " |") := by
  refine ⟨rfl, ?_, ?_⟩
  · intro h
    simp only [build_row]
    rw [h]
    rfl
  · intro v h
    simp only [build_row]
    rw [h]
    rfl

/-- C8 witness: an entry with no frontmatter gets its directory name as
display name. -/
theorem c8_witness :
    build_row (str "o/r") (str "dir") (parse_frontmatter []) =
      str "| [dir](dir) |  | `bunx skills add o/r --skill \"dir\"` |" := by
  have h := (c8_display_name_fallback (fun _ => []) (str "o/r") [] (str "dir")).2.1
    (by decide)
  rw [h]
  decide

/-! ## C6: the directory scanner -/

/-- C6: the scanner returns exactly the names of the non-hidden immediate
subdirectory entries containing a `SKILL.md` (as a permutation of the
filtered names, so nothing else is included), in lexicographically sorted
order; there is no recursion, since only the immediate entries are examined. -/
theorem c6_scanner (entries : List DirEntry) :
    (list_skill_dirs entries).Perm ((entries.filter skillDirFilter).map (·.name)) ∧
    List.Sorted (· ≤ ·) (list_skill_dirs entries) ∧
    ∀ x, x ∈ list_skill_dirs entries ↔
      ∃ e ∈ entries, e.name = x ∧ e.isDir = true ∧
        ¬ (str ".") <+: x ∧ e.hasSkillMd = true := by
  refine ⟨List.perm_insertionSort _ _, List.sorted_insertionSort _ _, ?_⟩
  intro x
  unfold list_skill_dirs
  rw [(List.perm_insertionSort (fun a b : List Char => a ≤ b)
    ((entries.filter skillDirFilter).map (·.name))).mem_iff]
  constructor
  · intro hx
    obtain ⟨e, he, rfl⟩ := List.mem_map.mp hx
    have hm := List.mem_filter.mp he
    have hf := hm.2
    unfold skillDirFilter at hf
    simp only [Bool.and_eq_true, Bool.not_eq_true'] at hf
    refine ⟨e, hm.1, rfl, hf.1.1, ?_, hf.2⟩
    intro hp
    rw [←  List.isPrefixOf_iff_prefix] at hp
    rw [hf.1.2] at hp
    cases hp
  · rintro ⟨e, he, rfl, hdir, hdot, hsk⟩
    apply List.mem_map.mpr
    refine ⟨e, List.mem_filter.mpr ⟨he, ?_⟩, rfl⟩
    unfold skillDirFilter
    simp only [Bool.and_eq_true, Bool.not_eq_true']
    refine ⟨⟨hdir, ?_⟩, hsk⟩
    cases hq : (str ".").isPrefixOf e.name
    · rfl
    · exact absurd ( List.isPrefixOf_iff_prefix.mp hq) hdot

/-- C6 witness: a hidden directory is skipped and a qualifying one listed. -/
theorem c6_witness :
    str "alpha" ∈ list_skill_dirs
      [⟨str "beta", true, true⟩, ⟨str ".hidden", true, true⟩,
       ⟨str "alpha", true, true⟩] :=
  ((c6_scanner [⟨str "beta", true, true⟩, ⟨str ".hidden", true, true⟩,
      ⟨str "alpha", true, true⟩]).2.2 (str "alpha")).mpr
    ⟨⟨str "alpha", true, true⟩, by decide, rfl, rfl, by decide, rfl⟩

/-! ## C9: no check that the start marker precedes the end marker -/

/-- C9: when both markers occur but the first occurrence of the end marker
(at `e`) precedes the first occurrence of the start marker (at `s`),
`update_readme` does not fail: it produces
`content[:s+len(start)] + "\n" + joined + "\n" + content[e:]`, in which the
whole slice of the document from the end marker to the end of the start
marker appears twice. -/
theorem c9_end_before_start (content : List Char) (T : List (List Char)) (s e : Nat)
    (hs : firstIdx TABLE_START content = some s)
    (he : firstIdx TABLE_END content = some e) (hes : e < s) :
    ∃ out, update_readme content T = some out ∧
      out = content.take (s + TABLE_START.length) ++ ['\n'] ++ joinNL T ++ ['\n'] ++
        content.drop e ∧
      out = content.take e ++ ((content.drop e).take (s + TABLE_START.length - e)) ++
        (['\n'] ++ joinNL T ++ ['\n']) ++
        ((content.drop e).take (s + TABLE_START.length - e)) ++
        content.drop (s + TABLE_START.length) := by
  refine ⟨content.take (s + TABLE_START.length) ++ ['\n'] ++ joinNL T ++ ['\n'] ++
    content.drop e, ?_, rfl, ?_⟩
  · unfold update_readme
    rw [hs, he]
  · have h1 : content.take (s + TABLE_START.length) =
        content.take e ++ (content.drop e).take (s + TABLE_START.length - e) := by
      have h2 : s + TABLE_START.length = e + (s + TABLE_START.length - e) := by omega
      conv_lhs => rw [h2]
      rw [List.take_add]
    have h3 : content.drop e =
        (content.drop e).take (s + TABLE_START.length - e) ++
          content.drop (s + TABLE_START.length) := by
      have h4 := List.take_append_drop (s + TABLE_START.length - e) (content.drop e)
      rw [List.drop_drop] at h4
      have h5 : e + (s + TABLE_START.length - e) = s + TABLE_START.length := by omega
      rw [h5] at h4
      exact h4.symm
    conv_lhs => rw [h3, h1]
    simp [List.append_assoc]

/-- C9 witness: a document whose end marker comes first is still spliced,
duplicating the slice between the markers. -/
theorem c9_witness :
    update_readme
      (str "a<!-- SKILLS_TABLE_END -->b<!-- SKILLS_TABLE_START -->c") [str "x"] =
      some (str
        "a<!-- SKILLS_TABLE_END -->b<!-- SKILLS_TABLE_START -->\nx\n<!-- SKILLS_TABLE_END -->b<!-- SKILLS_TABLE_START -->c") := by
  obtain ⟨out, h1, h2, -⟩ := c9_end_before_start
    (str "a<!-- SKILLS_TABLE_END -->b<!-- SKILLS_TABLE_START -->c") [str "x"] 27 1
    (by decide) (by decide) (by decide)
  rw [h1, h2]
  decide

/-! ## C7: idempotence of the splice -/

/-- No nonempty proper tail of the start marker is prefix-compatible with the
end marker, so occurrences of the two markers cannot overlap. -/
theorem markers_disjoint : ∀ d, d < TABLE_START.length → 0 < d →
    ¬(TABLE_END <+: TABLE_START.drop d) ∧ ¬(TABLE_START.drop d <+: TABLE_END) := by
  decide

/-- When the start marker occurs at `s`, the end marker at `e`, and `s < e`,
the end marker in fact starts at or after the end of the start marker. -/
theorem start_end_sep {C : List Char} {s e : Nat}
    (hS : TABLE_START <+: C.drop s) (hE : TABLE_END <+: C.drop e) (hse : s < e) :
    s + TABLE_START.length ≤ e := by
  by_contra hlt
  push_neg at hlt
  have hL1 : TABLE_START.length = 27 := by decide
  have hL2 : TABLE_END.length = 25 := by decide
  obtain ⟨r, hr⟩ := hS
  have h1 : C.drop e = TABLE_START.drop (e - s) ++ r := by
    have h2 : C.drop e = (C.drop s).drop (e - s) := by
      rw [List.drop_drop]
      congr 1
      omega
    rw [h2, ← hr, List.drop_append_of_le_length (by omega)]
  rw [h1] at hE
  have hdl : (TABLE_START.drop (e - s)).length = 27 - (e - s) := by
    rw [List.length_drop, hL1]
  have hd := markers_disjoint (e - s) (by omega) (by omega)
  by_cases hc : TABLE_END.length ≤ (TABLE_START.drop (e - s)).length
  · exact hd.1 ((pref_append_left hc).mp hE)
  · exact hd.2 (pref_append_short (by omega) hE)

/-- A newline-free pattern occurring inside a newline-join of lines occurs
inside one of the lines. -/
theorem occ_in_joinNL {pat : List Char} (hnl : '\n' ∉ pat) (hne : pat ≠ []) :
    ∀ (T : List (List Char)) (q : Nat), pat <+: (joinNL T).drop q →
      q + pat.length ≤ (joinNL T).length →
      ∃ l ∈ T, ∃ j, pat <+: l.drop j := by
  intro T
  induction T with
  | nil =>
    intro q h hfit
    exfalso
    simp only [joinNL, List.length_nil] at hfit
    have h0 : pat.length = 0 := by omega
    exact hne (List.length_eq_zero.mp h0)
  | cons l ls ih =>
    cases ls with
    | nil =>
      intro q h hfit
      exact ⟨l, List.mem_cons_self _ _, q, h⟩
    | cons l' ls' =>
      intro q h hfit
      have hJ : joinNL (l :: l' :: ls') = l ++ '\n' :: joinNL (l' :: ls') := rfl
      rw [hJ] at h hfit
      by_cases c1 : q + pat.length ≤ l.length
      · exact ⟨l, List.mem_cons_self _ _, q, occ_of_occ_append c1 h⟩
      · by_cases c2 : q ≤ l.length
        · exfalso
          have hX : (l ++ '\n' :: joinNL (l' :: ls'))[l.length]? = some '\n' := by
            rw [List.getElem?_append_right (le_refl _)]
            simp
          exact no_occ_across_newline hnl h c2 (by omega) hX
        · have hq : q = (l ++ ['\n']).length + (q - l.length - 1) := by
            simp only [List.length_append, List.length_cons, List.length_nil]
            omega
          have h2 : (l ++ '\n' :: joinNL (l' :: ls')).drop q =
              (joinNL (l' :: ls')).drop (q - l.length - 1) := by
            have h3 : l ++ '\n' :: joinNL (l' :: ls') =
                (l ++ ['\n']) ++ joinNL (l' :: ls') := by simp
            rw [h3]
            conv_lhs => rw [hq]
            rw [List.drop_append]
          rw [h2] at h
          have hfit2 : (q - l.length - 1) + pat.length ≤ (joinNL (l' :: ls')).length := by
            rw [List.length_append, List.length_cons] at hfit
            omega
          obtain ⟨l0, hl0, j, hj⟩ := ih (q - l.length - 1) h hfit2
          exact ⟨l0, List.mem_cons_of_mem _ hl0, j, hj⟩

/-- C7: the splice is idempotent: for a document in which the first start
marker precedes the first end marker and table lines that contain neither
marker, running `update_readme` on its own output with the same table lines
reproduces that output exactly. -/
theorem c7_splice_idempotent (content : List Char) (T : List (List Char)) (s e : Nat)
    (hs : firstIdx TABLE_START content = some s)
    (he : firstIdx TABLE_END content = some e)
    (hse : s < e)
    (hT : ∀ l ∈ T, firstIdx TABLE_START l = none ∧ firstIdx TABLE_END l = none) :
    ∀ out, update_readme content T = some out → update_readme out T = some out := by
  intro out hout
  have hSocc := (firstIdx_some hs).1
  have hSmin := (firstIdx_some hs).2
  have hEocc := (firstIdx_some he).1
  have hEmin := (firstIdx_some he).2
  have hL2 : TABLE_END.length = 25 := by decide
  have hsep : s + TABLE_START.length ≤ e := start_end_sep hSocc hEocc hse
  have hAlen : (content.take (s + TABLE_START.length)).length =
      s + TABLE_START.length := length_take_occ hSocc (by decide)
  have hout2 : out = content.take (s + TABLE_START.length) ++
      '\n' :: (joinNL T ++ '\n' :: content.drop e) := by
    unfold update_readme at hout
    rw [hs, he] at hout
    have h0 := Option.some.inj hout
    rw [← h0]
    simp [List.append_assoc]
  have hsplit : out = (content.take (s + TABLE_START.length) ++
      '\n' :: (joinNL T ++ ['\n'])) ++ content.drop e := by
    rw [hout2]
    simp
  have hXlen : (content.take (s + TABLE_START.length) ++
      '\n' :: (joinNL T ++ ['\n'])).length =
      s + TABLE_START.length + (joinNL T).length + 2 := by
    simp only [List.length_append, List.length_cons, List.length_nil, hAlen]
    omega
  have hg1 : firstIdx TABLE_START out = some s := by
    apply firstIdx_eq_some
    · rw [hout2, List.drop_append_of_le_length (by rw [hAlen]; omega),
        drop_take_occ hSocc]
      exact ⟨_, rfl⟩
    · intro m hm hocc
      rw [hout2] at hocc
      have h1 : TABLE_START <+: (content.take (s + TABLE_START.length)).drop m :=
        occ_of_occ_append (by rw [hAlen]; omega) hocc
      exact hSmin m hm (occ_of_occ_take h1)
  have hg2 : firstIdx TABLE_END out =
      some (s + TABLE_START.length + (joinNL T).length + 2) := by
    apply firstIdx_eq_some
    · rw [hsplit, ← hXlen, List.drop_left]
      exact hEocc
    · intro q hq hocc
      rw [hout2] at hocc
      by_cases c1 : q + TABLE_END.length ≤ s + TABLE_START.length
      · have h1 : TABLE_END <+: (content.take (s + TABLE_START.length)).drop q :=
          occ_of_occ_append (by rw [hAlen]; omega) hocc
        exact hEmin q (by omega) (occ_of_occ_take h1)
      · by_cases c2 : q ≤ s + TABLE_START.length
        · have hi : q ≤ (content.take (s + TABLE_START.length)).length := by
            rw [hAlen]; omega
          have hi2 : (content.take (s + TABLE_START.length)).length <
              q + TABLE_END.length := by
            rw [hAlen]; omega
          have hX : (content.take (s + TABLE_START.length) ++
              '\n' :: (joinNL T ++ '\n' :: content.drop e))[
                (content.take (s + TABLE_START.length)).length]? = some '\n' := by
            rw [List.getElem?_append_right (le_refl _)]
            simp
          exact no_occ_across_newline (by decide) hocc hi hi2 hX
        · have hdropq : (content.take (s + TABLE_START.length) ++
              '\n' :: (joinNL T ++ '\n' :: content.drop e)).drop q =
              (joinNL T ++ '\n' :: content.drop e).drop
                (q - (s + TABLE_START.length) - 1) := by
            have h3 : content.take (s + TABLE_START.length) ++
                '\n' :: (joinNL T ++ '\n' :: content.drop e) =
                (content.take (s + TABLE_START.length) ++ ['\n']) ++
                  (joinNL T ++ '\n' :: content.drop e) := by simp
            have hq2 : q = (content.take (s + TABLE_START.length) ++ ['\n']).length +
                (q - (s + TABLE_START.length) - 1) := by
              simp only [List.length_append, List.length_cons, List.length_nil, hAlen]
              omega
            rw [h3]
            conv_lhs => rw [hq2]
            rw [List.drop_append]
          rw [hdropq] at hocc
          by_cases c3 : (q - (s + TABLE_START.length) - 1) + TABLE_END.length ≤
              (joinNL T).length
          · have h1 : TABLE_END <+:
                (joinNL T).drop (q - (s + TABLE_START.length) - 1) := by
              rw [List.drop_append_of_le_length (by omega)] at hocc
              exact (pref_append_left (by rw [List.length_drop]; omega)).mp hocc
            obtain ⟨l0, hl0, j, hj⟩ := occ_in_joinNL (by decide) (by decide) T _ h1 c3
            exact (firstIdx_none.mp (hT l0 hl0).2) j hj
          · by_cases c4 : q - (s + TABLE_START.length) - 1 ≤ (joinNL T).length
            · have hi2 : (joinNL T).length <
                  (q - (s + TABLE_START.length) - 1) + TABLE_END.length := by omega
              have hX : (joinNL T ++ '\n' :: content.drop e)[(joinNL T).length]? =
                  some '\n' := by
                rw [List.getElem?_append_right (le_refl _)]
                simp
              exact no_occ_across_newline (by decide) hocc c4 hi2 hX
            · omega
  have htake : out.take (s + TABLE_START.length) =
      content.take (s + TABLE_START.length) := by
    rw [hout2]
    have h2 := List.take_left (content.take (s + TABLE_START.length))
      ('\n' :: (joinNL T ++ '\n' :: content.drop e))
    rwa [hAlen] at h2
  have hdropp : out.drop (s + TABLE_START.length + (joinNL T).length + 2) =
      content.drop e := by
    rw [hsplit, ← hXlen, List.drop_left]
  unfold update_readme
  rw [hg1, hg2]
  show some (out.take (s + TABLE_START.length) ++ ['\n'] ++ joinNL T ++ ['\n'] ++
    out.drop (s + TABLE_START.length + (joinNL T).length + 2)) = some out
  rw [htake, hdropp, hout2]
  simp [List.append_assoc]

/-- C7 witness: splicing a concrete document, then splicing the output
again with the same table lines, reproduces the output. -/
theorem c7_witness :
    update_readme (str "<!-- SKILLS_TABLE_START -->\nold\n<!-- SKILLS_TABLE_END -->")
      [str "a"] =
      some (str "<!-- SKILLS_TABLE_START -->\na\n<!-- SKILLS_TABLE_END -->") ∧
    update_readme (str "<!-- SKILLS_TABLE_START -->\na\n<!-- SKILLS_TABLE_END -->")
      [str "a"] =
      some (str "<!-- SKILLS_TABLE_START -->\na\n<!-- SKILLS_TABLE_END -->") := by
  constructor
  · decide
  · exact c7_splice_idempotent
      (str "<!-- SKILLS_TABLE_START -->\nold\n<!-- SKILLS_TABLE_END -->") [str "a"]
      0 32 (by decide) (by decide) (by decide) (by decide)
      (str "<!-- SKILLS_TABLE_START -->\na\n<!-- SKILLS_TABLE_END -->") (by decide)
